import Mathlib

/-!
Verification development for the Sonar aircontrol-KML correlation pipeline
(`get_aircontrol_kml.py`).  The Python source is shallowly embedded below:
Python dicts become association lists with dict-style insertion (overwrite in
place on key collision, append otherwise, preserving insertion order), the
paged REST collaborator becomes an explicit fetch function
`Option Nat → Page α` (the argument mirrors the optional `page` parameter of
`rest_get`), the `re.match` MAC test becomes an executable consumer of the
fixed-width regular expression, and the `KeyError`-raising join becomes an
`Option`-valued loop that yields `none` on the first missing key.
Coordinates are opaque payload (never computed with in the source), embedded
as integer pairs.
-/

namespace Sonar

/-- A page as returned by `rest_get`: the `data` records plus the
`paginator.total_pages` count. -/
structure Page (α : Type) where
  data : List α
  total_pages : Nat

/-- A paged-resource fetch collaborator: `none` is a call without the `page`
parameter (used by the source to read `total_pages`), `some p` fetches page
`p`. -/
abbrev Fetch (α : Type) := Option Nat → Page α

/-- Geographic coordinates (`point.geometry.coordinates`): opaque payload,
embedded as an integer pair. -/
abbrev Coord := Int × Int

/-- One feature of a geojson feature collection: `properties.id` and
`geometry.coordinates`. -/
structure GeoPoint where
  id : Nat
  coordinates : Coord
deriving DecidableEq

/-- An inventory model record: `id` and `manufacturer_id`. -/
structure InventoryModel where
  id : Nat
  manufacturer_id : Nat
deriving DecidableEq

/-- One entry of an item's `fields` sequence, holding its `data` string. -/
structure ItemField where
  data : String
deriving DecidableEq

/-- An inventory item record with the attributes the script reads. -/
structure InventoryItem where
  id : Nat
  assignee_type : String
  assignee_id : Nat
  inventory_model_id : Nat
  fields : List ItemField
deriving DecidableEq

/-- The value stored in the `macs` dictionary for an item:
`{'assignee_id': ..., 'mac': ...}`. -/
structure MacRecord where
  assignee_id : Nat
  mac : String
deriving DecidableEq

/-- Python dict assignment `d[k] = v`: overwrite in place if the key is
present, append otherwise (insertion order preserved). -/
def dictInsert {α β : Type} [BEq α] (k : α) (v : β) (d : List (α × β)) : List (α × β) :=
  if d.any (fun p => p.1 == k) then
    d.map (fun p => if p.1 == k then (k, v) else p)
  else
    d ++ [(k, v)]

/-- Python dict lookup `d.get(k)`: the value at the first entry whose key
equals `k`, if any. -/
def dictGet? {α β : Type} [BEq α] (d : List (α × β)) (k : α) : Option β :=
  (d.find? (fun p => p.1 == k)).map Prod.snd

/-- The keys of an association list, in order. -/
def dictKeys {α β : Type} (d : List (α × β)) : List α :=
  d.map Prod.fst

/-- Python `{**d1, **d2}`: all entries of `d1`, then all entries of `d2`
inserted with dict semantics (so `d2` overwrites `d1` on key collision). -/
def dictMerge {α β : Type} [BEq α] (d1 d2 : List (α × β)) : List (α × β) :=
  d2.foldl (fun d p => dictInsert p.1 p.2 d) d1

/-- Python `str.upper()` on the ASCII strings the script handles. -/
def pyUpper (s : String) : String :=
  ⟨s.data.map Char.toUpper⟩

/-- The character class `[0-9A-F]` of the MAC regular expression. -/
def hexUp (c : Char) : Bool :=
  (decide ('0' ≤ c) && decide (c ≤ '9')) || (decide ('A' ≤ c) && decide (c ≤ 'F'))

/-- The character class `[:-]` of the MAC regular expression. -/
def isSep (c : Char) : Bool :=
  c == ':' || c == '-'

/-- Consume `[0-9A-F]{2}`: two hex digits at the head of the input, returning
the rest. -/
def consumeHexPair : List Char → Option (List Char)
  | a :: b :: rest => if hexUp a && hexUp b then some rest else none
  | _ => none

/-- Consume one repetition of the group `([0-9A-F]{2}[:-])`: two hex digits
and one separator. -/
def consumeGroupSep (cs : List Char) : Option (List Char) :=
  match consumeHexPair cs with
  | some (s :: rest) => if isSep s then some rest else none
  | _ => none

/-- Python's `$` anchor (no MULTILINE): it matches at the end of the string or
just before a single trailing newline. -/
def dollarAt : List Char → Bool
  | [] => true
  | [c] => c == '\n'
  | _ => false

/-- Consume the body `([0-9A-F]{2}[:-]){5}([0-9A-F]{2})` of the regular
expression: five hex-pair-plus-separator groups, then a final hex pair.  The
result is what remains after the body. -/
def macConsume (cs : List Char) : Option (List Char) :=
  (((((consumeGroupSep cs).bind consumeGroupSep).bind consumeGroupSep).bind
      consumeGroupSep).bind consumeGroupSep).bind consumeHexPair

/-- `re.match("^([0-9A-F]{2}[:-]){5}([0-9A-F]{2})$", s)` as a Boolean: the
body must start at the beginning of `s` and the remainder must satisfy the
`$` anchor. -/
def macRegexMatch (s : String) : Bool :=
  match macConsume s.data with
  | some tail => dollarAt tail
  | none => false

/-- The test the device filter applies to a field value:
`match(pattern, field['data'].upper())`. -/
def macMatches (v : String) : Bool :=
  macRegexMatch (pyUpper v)

/-- The strict variant of the MAC test, with `$` read as end-of-string only
(no trailing newline).  Used to state which values are plain MAC strings. -/
def macMatchesStrict (v : String) : Bool :=
  match macConsume (pyUpper v).data with
  | some tail => tail.isEmpty
  | none => false

/-- `BASE_URL` of the script. -/
def BASE_URL : String :=
  "https://wilsoncreek.sonar.software/api/v1"

/-- `create_url`: raise `URLError(endpoint)` when `endpoint[:1] != '/'`,
otherwise return `BASE_URL` with the endpoint appended. -/
def create_url (endpoint : String) : Except String String :=
  if endpoint.data.take 1 ≠ ['/'] then
    Except.error endpoint
  else
    Except.ok (BASE_URL ++ endpoint)

/-- `get_all_accounts_coordinates`: fold the accounts geojson features into a
dict from `properties.id` to `geometry.coordinates`. -/
def get_all_accounts_coordinates (features : List GeoPoint) : List (Nat × Coord) :=
  features.foldl (fun accounts point => dictInsert point.id point.coordinates accounts) []

/-- `get_all_network_sites_coordinates`: fold the network-sites geojson
features into a dict from `properties.id` to `geometry.coordinates`. -/
def get_all_network_sites_coordinates (features : List GeoPoint) : List (Nat × Coord) :=
  features.foldl (fun network_sites point => dictInsert point.id point.coordinates network_sites) []

/-- `get_all_coordinates`: the dict union
`{**get_all_accounts_coordinates(), **get_all_network_sites_coordinates()}`. -/
def get_all_coordinates (accountsFeatures sitesFeatures : List GeoPoint) : List (Nat × Coord) :=
  dictMerge (get_all_accounts_coordinates accountsFeatures)
    (get_all_network_sites_coordinates sitesFeatures)

/-- `get_all_ubiquiti_models`: read `total_pages`, then for each page in
`range(pages)` append the `id` of every model whose `manufacturer_id == 1`. -/
def get_all_ubiquiti_models (fetchModels : Fetch InventoryModel) : List Nat :=
  let pages := (fetchModels none).total_pages
  (List.range pages).foldl
    (fun models page =>
      ((fetchModels (some page)).data).foldl
        (fun models model =>
          if model.manufacturer_id = 1 then models ++ [model.id] else models)
        models)
    []

/-- The three excluded assignee-type categories of the device filter. -/
def excludedAssigneeTypes : List String :=
  ["generic_inventory_assignees", "inventory_locations", "vehicles"]

/-- The inner `for field in item['fields']` loop: every field whose uppercased
data matches the MAC pattern assigns `macs[item['id']]` (no break, so later
matches overwrite earlier ones). -/
def scanFields (item : InventoryItem) : List ItemField → List (Nat × MacRecord) → List (Nat × MacRecord)
  | [], macs => macs
  | field :: rest, macs =>
    if macMatches field.data then
      scanFields item rest (dictInsert item.id ⟨item.assignee_id, field.data⟩ macs)
    else
      scanFields item rest macs

/-- The body of the item loop: skip excluded assignee types, skip models not
in the Ubiquiti model list, otherwise scan the item's fields. -/
def processItem (models : List Nat) (macs : List (Nat × MacRecord)) (item : InventoryItem) :
    List (Nat × MacRecord) :=
  if item.assignee_type ∉ excludedAssigneeTypes then
    if item.inventory_model_id ∈ models then
      scanFields item item.fields macs
    else macs
  else macs

/-- `get_all_active_ubiquiti_inventory_macs`: resolve the Ubiquiti model ids,
read `total_pages` of the items resource, then process every item of every
page into the `macs` dict. -/
def get_all_active_ubiquiti_inventory_macs (fetchModels : Fetch InventoryModel)
    (fetchItems : Fetch InventoryItem) : List (Nat × MacRecord) :=
  let models := get_all_ubiquiti_models fetchModels
  let pages := (fetchItems none).total_pages
  (List.range pages).foldl
    (fun macs page => ((fetchItems (some page)).data).foldl (processItem models) macs)
    []

/-- The `for item in macs` join loop of `match_coordinates_to_inventory`:
`matched[mac] = coordinates[assignee_id]`.  A missing key raises `KeyError`,
embedded as `none` (the loop aborts with no output). -/
def matchLoop (coordinates : List (Nat × Coord)) :
    List (Nat × MacRecord) → List (String × Coord) → Option (List (String × Coord))
  | [], matched => some matched
  | entry :: rest, matched =>
    match dictGet? coordinates entry.2.assignee_id with
    | some coord => matchLoop coordinates rest (dictInsert entry.2.mac coord matched)
    | none => none

/-- `match_coordinates_to_inventory`: build the macs dict and the merged
coordinates dict, then join them by assignee id. -/
def match_coordinates_to_inventory (fetchModels : Fetch InventoryModel)
    (fetchItems : Fetch InventoryItem) (accountsFeatures sitesFeatures : List GeoPoint) :
    Option (List (String × Coord)) :=
  matchLoop (get_all_coordinates accountsFeatures sitesFeatures)
    (get_all_active_ubiquiti_inventory_macs fetchModels fetchItems) []

/-- The pagination pattern shared by `get_all_ubiquiti_models` and
`get_all_active_ubiquiti_inventory_macs`: one call without a page parameter to
read `total_pages`, then one call per page in `range(pages)`, concatenating the
records.  The second component records the sequence of fetch calls made. -/
def runPaginator {α : Type} (fetch : Fetch α) : List α × List (Option Nat) :=
  let pages := (fetch none).total_pages
  (List.range pages).foldl
    (fun acc page => (acc.1 ++ (fetch (some page)).data, acc.2 ++ [some page]))
    ([], [none])

/-- A fetch collaborator for a resource that fits on a single page. -/
def onePage {α : Type} (records : List α) : Fetch α :=
  fun _ => ⟨records, 1⟩

/-- A two-page fetch collaborator used to exercise the paginator. -/
def twoPageFetch : Fetch Nat
  | none => ⟨[], 2⟩
  | some 0 => ⟨[1, 2], 2⟩
  | some _ => ⟨[3], 2⟩

/-- The spec's reading of the MAC pattern, stated from its words for
comparison: six groups of two hex digits on the uppercased value, with the
colon/hyphen separators consistent within a single match (all colons or all
hyphens). -/
def consistentSepMac (v : String) : Bool :=
  match (pyUpper v).data with
  | [a1, a2, s1, b1, b2, s2, c1, c2, s3, d1, d2, s4, e1, e2, s5, f1, f2] =>
    hexUp a1 && hexUp a2 && hexUp b1 && hexUp b2 && hexUp c1 && hexUp c2 &&
    hexUp d1 && hexUp d2 && hexUp e1 && hexUp e2 && hexUp f1 && hexUp f2 &&
    ((s1 == ':' && s2 == ':' && s3 == ':' && s4 == ':' && s5 == ':') ||
     (s1 == '-' && s2 == '-' && s3 == '-' && s4 == '-' && s5 == '-'))
  | _ => false

/-- The claim's "trimmed" form of a value: leading and trailing whitespace
removed.  Stated from the spec's words for comparison with the code, which
does not trim. -/
def trimChars (cs : List Char) : List Char :=
  ((cs.dropWhile Char.isWhitespace).reverse.dropWhile Char.isWhitespace).reverse

/-- The claim's trimmed-and-uppercased matching predicate: does the trimmed,
uppercased form of `v` match the MAC pattern? -/
def trimmedUpperMatches (v : String) : Bool :=
  macRegexMatch ⟨trimChars (pyUpper v).data⟩

/-- The exact shape of the strings accepted by the MAC regular-expression
test: seventeen characters forming six hex pairs joined by five separators
each independently `:` or `-`, followed by a tail that is empty or a single
newline. -/
def MacShapeP (cs : List Char) : Prop :=
  ∃ a1 a2 s1 b1 b2 s2 c1 c2 s3 d1 d2 s4 e1 e2 s5 f1 f2 tail,
    cs = [a1, a2, s1, b1, b2, s2, c1, c2, s3, d1, d2, s4, e1, e2, s5, f1, f2] ++ tail ∧
    hexUp a1 = true ∧ hexUp a2 = true ∧ isSep s1 = true ∧
    hexUp b1 = true ∧ hexUp b2 = true ∧ isSep s2 = true ∧
    hexUp c1 = true ∧ hexUp c2 = true ∧ isSep s3 = true ∧
    hexUp d1 = true ∧ hexUp d2 = true ∧ isSep s4 = true ∧
    hexUp e1 = true ∧ hexUp e2 = true ∧ isSep s5 = true ∧
    hexUp f1 = true ∧ hexUp f2 = true ∧
    (tail = [] ∨ tail = ['\n'])

theorem consumeHexPair_eq_some (cs r : List Char) :
    consumeHexPair cs = some r ↔ ∃ a b, cs = a :: b :: r ∧ hexUp a = true ∧ hexUp b = true := by
  constructor
  · intro h
    rcases cs with _ | ⟨a, _ | ⟨b, t⟩⟩
    · simp [consumeHexPair] at h
    · simp [consumeHexPair] at h
    · have hred : consumeHexPair (a :: b :: t) = if hexUp a && hexUp b then some t else none := rfl
      rw [hred] at h
      by_cases hab : (hexUp a && hexUp b) = true
      · rw [if_pos hab] at h
        simp only [Bool.and_eq_true] at hab
        cases Option.some.inj h
        exact ⟨a, b, rfl, hab.1, hab.2⟩
      · rw [if_neg hab] at h
        exact absurd h (by simp)
  · rintro ⟨a, b, rfl, ha, hb⟩
    simp [consumeHexPair, ha, hb]

theorem consumeGroupSep_eq_some (cs r : List Char) :
    consumeGroupSep cs = some r ↔
      ∃ a b s, cs = a :: b :: s :: r ∧ hexUp a = true ∧ hexUp b = true ∧ isSep s = true := by
  constructor
  · intro h
    unfold consumeGroupSep at h
    rcases hcp : consumeHexPair cs with _ | t
    · rw [hcp] at h; simp at h
    · rw [hcp] at h
      rcases t with _ | ⟨s, rest⟩
      · simp at h
      · simp only at h
        split at h
        · rw [Option.some.injEq] at h
          obtain ⟨a, b, hcs, ha, hb⟩ := (consumeHexPair_eq_some cs (s :: rest)).mp hcp
          exact ⟨a, b, s, by rw [hcs, h], ha, hb, by assumption⟩
        · exact absurd h (by simp)
  · rintro ⟨a, b, s, rfl, ha, hb, hs⟩
    simp [consumeGroupSep, consumeHexPair, ha, hb, hs]

theorem dollarAt_eq_true (t : List Char) :
    dollarAt t = true ↔ t = [] ∨ t = ['\n'] := by
  rcases t with _ | ⟨c, _ | ⟨d, rest⟩⟩ <;> simp [dollarAt]

theorem consumeHexPair_append (cs r t : List Char) (h : consumeHexPair cs = some r) :
    consumeHexPair (cs ++ t) = some (r ++ t) := by
  obtain ⟨a, b, rfl, ha, hb⟩ := (consumeHexPair_eq_some cs r).mp h
  simp [consumeHexPair, ha, hb]

theorem consumeGroupSep_append (cs r t : List Char) (h : consumeGroupSep cs = some r) :
    consumeGroupSep (cs ++ t) = some (r ++ t) := by
  obtain ⟨a, b, s, rfl, ha, hb, hs⟩ := (consumeGroupSep_eq_some cs r).mp h
  simp [consumeGroupSep, consumeHexPair, ha, hb, hs]

theorem macConsume_append (cs t r : List Char) (h : macConsume cs = some r) :
    macConsume (cs ++ t) = some (r ++ t) := by
  simp only [macConsume, Option.bind_eq_some] at h ⊢
  obtain ⟨r5, ⟨r4, ⟨r3, ⟨r2, ⟨r1, h1, h2⟩, h3⟩, h4⟩, h5⟩, h6⟩ := h
  exact ⟨r5 ++ t, ⟨r4 ++ t, ⟨r3 ++ t, ⟨r2 ++ t, ⟨r1 ++ t,
    consumeGroupSep_append _ _ _ h1, consumeGroupSep_append _ _ _ h2⟩,
    consumeGroupSep_append _ _ _ h3⟩, consumeGroupSep_append _ _ _ h4⟩,
    consumeGroupSep_append _ _ _ h5⟩, consumeHexPair_append _ _ _ h6⟩

theorem macConsume_eq_some (cs r : List Char) :
    macConsume cs = some r ↔
      ∃ a1 a2 s1 b1 b2 s2 c1 c2 s3 d1 d2 s4 e1 e2 s5 f1 f2,
        cs = [a1, a2, s1, b1, b2, s2, c1, c2, s3, d1, d2, s4, e1, e2, s5, f1, f2] ++ r ∧
        hexUp a1 = true ∧ hexUp a2 = true ∧ isSep s1 = true ∧
        hexUp b1 = true ∧ hexUp b2 = true ∧ isSep s2 = true ∧
        hexUp c1 = true ∧ hexUp c2 = true ∧ isSep s3 = true ∧
        hexUp d1 = true ∧ hexUp d2 = true ∧ isSep s4 = true ∧
        hexUp e1 = true ∧ hexUp e2 = true ∧ isSep s5 = true ∧
        hexUp f1 = true ∧ hexUp f2 = true := by
  simp only [macConsume, Option.bind_eq_some, consumeGroupSep_eq_some, consumeHexPair_eq_some]
  constructor
  · rintro ⟨r5, ⟨r4, ⟨r3, ⟨r2, ⟨r1, ⟨a1, a2, s1, rfl, ha1, ha2, hs1⟩,
      ⟨b1, b2, s2, rfl, hb1, hb2, hs2⟩⟩, ⟨c1, c2, s3, rfl, hc1, hc2, hs3⟩⟩,
      ⟨d1, d2, s4, rfl, hd1, hd2, hs4⟩⟩, ⟨e1, e2, s5, rfl, he1, he2, hs5⟩⟩,
      ⟨f1, f2, rfl, hf1, hf2⟩⟩
    exact ⟨a1, a2, s1, b1, b2, s2, c1, c2, s3, d1, d2, s4, e1, e2, s5, f1, f2, rfl,
      ha1, ha2, hs1, hb1, hb2, hs2, hc1, hc2, hs3, hd1, hd2, hs4, he1, he2, hs5, hf1, hf2⟩
  · rintro ⟨a1, a2, s1, b1, b2, s2, c1, c2, s3, d1, d2, s4, e1, e2, s5, f1, f2, rfl,
      ha1, ha2, hs1, hb1, hb2, hs2, hc1, hc2, hs3, hd1, hd2, hs4, he1, he2, hs5, hf1, hf2⟩
    exact ⟨_, ⟨_, ⟨_, ⟨_, ⟨_, ⟨a1, a2, s1, rfl, ha1, ha2, hs1⟩,
      ⟨b1, b2, s2, rfl, hb1, hb2, hs2⟩⟩, ⟨c1, c2, s3, rfl, hc1, hc2, hs3⟩⟩,
      ⟨d1, d2, s4, rfl, hd1, hd2, hs4⟩⟩, ⟨e1, e2, s5, rfl, he1, he2, hs5⟩⟩,
      ⟨f1, f2, rfl, hf1, hf2⟩⟩

theorem macRegexMatch_iff_shape (s : String) :
    macRegexMatch s = true ↔ MacShapeP s.data := by
  unfold macRegexMatch
  constructor
  · intro h
    rcases hm : macConsume s.data with _ | tail
    · rw [hm] at h; simp at h
    · rw [hm] at h
      obtain ⟨a1, a2, s1, b1, b2, s2, c1, c2, s3, d1, d2, s4, e1, e2, s5, f1, f2, hcs,
        ha1, ha2, hs1, hb1, hb2, hs2, hc1, hc2, hs3, hd1, hd2, hs4, he1, he2, hs5, hf1, hf2⟩ :=
        (macConsume_eq_some s.data tail).mp hm
      exact ⟨a1, a2, s1, b1, b2, s2, c1, c2, s3, d1, d2, s4, e1, e2, s5, f1, f2, tail, hcs,
        ha1, ha2, hs1, hb1, hb2, hs2, hc1, hc2, hs3, hd1, hd2, hs4, he1, he2, hs5, hf1, hf2,
        (dollarAt_eq_true tail).mp h⟩
  · rintro ⟨a1, a2, s1, b1, b2, s2, c1, c2, s3, d1, d2, s4, e1, e2, s5, f1, f2, tail, hcs,
      ha1, ha2, hs1, hb1, hb2, hs2, hc1, hc2, hs3, hd1, hd2, hs4, he1, he2, hs5, hf1, hf2, htail⟩
    have hm : macConsume s.data = some tail :=
      (macConsume_eq_some s.data tail).mpr
        ⟨a1, a2, s1, b1, b2, s2, c1, c2, s3, d1, d2, s4, e1, e2, s5, f1, f2, hcs,
          ha1, ha2, hs1, hb1, hb2, hs2, hc1, hc2, hs3, hd1, hd2, hs4, he1, he2, hs5, hf1, hf2⟩
    rw [hm]
    exact (dollarAt_eq_true tail).mpr htail

theorem find?_map_overwrite {α β : Type} [BEq α] [LawfulBEq α] (k : α) (v : β)
    (d : List (α × β)) (h : d.any (fun p => p.1 == k) = true) :
    (d.map fun p => if p.1 == k then (k, v) else p).find? (fun p => p.1 == k) = some (k, v) := by
  induction d with
  | nil => simp at h
  | cons p rest ih =>
    rcases p with ⟨pk, pv⟩
    by_cases hp : (pk == k) = true
    · simp [hp]
    · have hp' : (pk == k) = false := by
        cases hb : (pk == k)
        · rfl
        · exact absurd hb hp
      have hrest : rest.any (fun p => p.1 == k) = true := by
        rw [List.any_cons] at h
        simpa [hp'] using h
      rw [List.map_cons, List.find?_cons_of_neg _ (by simp [hp'])]
      exact ih hrest

theorem dictGet?_insert_self {α β : Type} [BEq α] [LawfulBEq α] (k : α) (v : β)
    (d : List (α × β)) : dictGet? (dictInsert k v d) k = some v := by
  unfold dictInsert dictGet?
  by_cases h : d.any (fun p => p.1 == k) = true
  · rw [if_pos h, find?_map_overwrite k v d h]
    rfl
  · rw [if_neg h, List.find?_append]
    have hnone : d.find? (fun p => p.1 == k) = none := by
      rw [List.find?_eq_none]
      intro x hx hpx
      exact h (List.any_eq_true.mpr ⟨x, hx, hpx⟩)
    rw [hnone]
    simp

theorem find?_map_overwrite_ne {α β : Type} [BEq α] [LawfulBEq α] (kI k : α) (v : β)
    (hne : (kI == k) = false) (d : List (α × β)) :
    (d.map fun p => if p.1 == kI then (kI, v) else p).find? (fun p => p.1 == k) =
      d.find? (fun p => p.1 == k) := by
  induction d with
  | nil => rfl
  | cons p rest ih =>
    rcases p with ⟨pk, pv⟩
    by_cases hpI : (pk == kI) = true
    · have hpkeq : pk = kI := eq_of_beq hpI
      subst hpkeq
      rw [List.map_cons, List.find?_cons_of_neg _ (by simp [hne]),
        List.find?_cons_of_neg _ (by simp [hne])]
      exact ih
    · have hpI' : (pk == kI) = false := by
        cases hb : (pk == kI)
        · rfl
        · exact absurd hb hpI
      by_cases hpk : (pk == k) = true
      · rw [List.map_cons, List.find?_cons_of_pos _ (by simp [hpI', hpk]),
          List.find?_cons_of_pos _ (by exact hpk)]
        simp [hpI']
      · rw [List.map_cons, List.find?_cons_of_neg _ (by simp [hpI', hpk]),
          List.find?_cons_of_neg _ (by exact hpk)]
        exact ih

theorem dictGet?_insert_ne {α β : Type} [BEq α] [LawfulBEq α] (kI k : α) (v : β)
    (d : List (α × β)) (hne : (kI == k) = false) :
    dictGet? (dictInsert kI v d) k = dictGet? d k := by
  unfold dictInsert dictGet?
  by_cases h : d.any (fun p => p.1 == kI) = true
  · rw [if_pos h, find?_map_overwrite_ne kI k v hne d]
  · rw [if_neg h, List.find?_append]
    have hsingle : ([(kI, v)].find? fun p => p.1 == k) = none := by
      simp [List.find?, hne]
    rw [hsingle, Option.or_none]

theorem dictKeys_insert_nodup {α β : Type} [BEq α] [LawfulBEq α] (k : α) (v : β)
    (d : List (α × β)) (h : (dictKeys d).Nodup) : (dictKeys (dictInsert k v d)).Nodup := by
  unfold dictInsert
  by_cases ha : d.any (fun p => p.1 == k) = true
  · rw [if_pos ha]
    have hkeys : dictKeys (d.map fun p => if p.1 == k then (k, v) else p) = dictKeys d := by
      unfold dictKeys
      rw [List.map_map]
      apply List.map_congr_left
      intro p _
      by_cases hp : (p.1 == k) = true
      · simp [Function.comp, hp, eq_of_beq hp]
      · simp [Function.comp, hp]
    rw [hkeys]
    exact h
  · rw [if_neg ha]
    unfold dictKeys at h ⊢
    rw [List.map_append, List.nodup_append]
    refine ⟨h, by simp, ?_⟩
    intro x hx hx'
    simp only [List.map_cons, List.map_nil, List.mem_singleton] at hx'
    subst hx'
    obtain ⟨p, hp, hpk⟩ := List.mem_map.mp hx
    apply ha
    exact List.any_eq_true.mpr ⟨p, hp, by simp [hpk]⟩

theorem foldl_insert_nodup {α β γ : Type} [BEq α] [LawfulBEq α] (g : γ → α) (h : γ → β)
    (l : List γ) (d : List (α × β)) (hd : (dictKeys d).Nodup) :
    (dictKeys (l.foldl (fun acc x => dictInsert (g x) (h x) acc) d)).Nodup := by
  induction l generalizing d with
  | nil => exact hd
  | cons x rest ih =>
    exact ih (dictInsert (g x) (h x) d) (dictKeys_insert_nodup (g x) (h x) d hd)

theorem dictGet?_eq_none_of_not_mem_keys {α β : Type} [BEq α] [LawfulBEq α]
    (d : List (α × β)) (k : α) (h : k ∉ dictKeys d) : dictGet? d k = none := by
  unfold dictGet?
  have hfind : d.find? (fun p => p.1 == k) = none := by
    rw [List.find?_eq_none]
    intro p hp hpk
    exact h (by unfold dictKeys; exact List.mem_map.mpr ⟨p, hp, eq_of_beq hpk⟩)
  rw [hfind]
  rfl

theorem dictGet?_merge {α β : Type} [BEq α] [LawfulBEq α] (b a : List (α × β)) (k : α)
    (hnd : (dictKeys b).Nodup) :
    dictGet? (dictMerge a b) k =
      match dictGet? b k with
      | some v => some v
      | none => dictGet? a k := by
  induction b generalizing a with
  | nil => simp [dictMerge, dictGet?]
  | cons p rest ih =>
    rcases p with ⟨pk, pv⟩
    have hnd2 : pk ∉ dictKeys rest ∧ (dictKeys rest).Nodup := by
      have hc : (pk :: dictKeys rest).Nodup := by simpa [dictKeys] using hnd
      exact List.nodup_cons.mp hc
    have hstep : dictMerge a ((pk, pv) :: rest) = dictMerge (dictInsert pk pv a) rest := rfl
    rw [hstep, ih _ hnd2.2]
    by_cases hk : (pk == k) = true
    · have hkeq : pk = k := eq_of_beq hk
      subst hkeq
      have hrnone : dictGet? rest pk = none :=
        dictGet?_eq_none_of_not_mem_keys rest pk hnd2.1
      have hhead : dictGet? ((pk, pv) :: rest) pk = some pv := by
        unfold dictGet?
        rw [List.find?_cons_of_pos _ (by simp)]
        rfl
      rw [hrnone, hhead, dictGet?_insert_self pk pv a]
    · have hk' : (pk == k) = false := by
        cases hb : (pk == k)
        · rfl
        · exact absurd hb hk
      rw [dictGet?_insert_ne pk k pv a hk']
      have hhead : dictGet? ((pk, pv) :: rest) k = dictGet? rest k := by
        unfold dictGet?
        rw [List.find?_cons_of_neg _ (by simp [hk'])]
      rw [hhead]

theorem scanFields_lookup (item : InventoryItem) (l : List ItemField)
    (macs : List (Nat × MacRecord)) :
    dictGet? (scanFields item l macs) item.id =
      match (l.filter fun f => macMatches f.data).getLast? with
      | some f => some ⟨item.assignee_id, f.data⟩
      | none => dictGet? macs item.id := by
  induction l generalizing macs with
  | nil => rfl
  | cons f rest ih =>
    by_cases hf : macMatches f.data = true
    · rw [scanFields, if_pos hf, ih, List.filter_cons_of_pos (by exact hf)]
      rcases hfr : (rest.filter fun f => macMatches f.data) with _ | ⟨g, L⟩
      · rw [hfr]
        exact dictGet?_insert_self item.id ⟨item.assignee_id, f.data⟩ macs
      · rw [hfr, List.getLast?_cons_cons]
        obtain ⟨x, hx⟩ : ∃ x, (g :: L).getLast? = some x := by
          cases hgl2 : (g :: L).getLast? with
          | none => exact absurd hgl2 (by simp)
          | some y => exact ⟨y, rfl⟩
        rw [hx]
    · rw [scanFields, if_neg hf, ih, List.filter_cons_of_neg (by exact hf)]

theorem single_item_lookup (a_t : String) (a_id i_id m_id : Nat) (fields : List ItemField)
    (hA : a_t ∉ excludedAssigneeTypes) :
    dictGet? (get_all_active_ubiquiti_inventory_macs (onePage [⟨m_id, 1⟩])
        (onePage [⟨i_id, a_t, a_id, m_id, fields⟩])) i_id =
      ((fields.filter fun f => macMatches f.data).getLast?).map
        (fun f => MacRecord.mk a_id f.data) := by
  have hr1 : List.range 1 = [0] := rfl
  have hmodels : get_all_ubiquiti_models (onePage [InventoryModel.mk m_id 1]) = [m_id] := by
    simp [get_all_ubiquiti_models, onePage, hr1]
  have hrun : get_all_active_ubiquiti_inventory_macs (onePage [⟨m_id, 1⟩])
      (onePage [⟨i_id, a_t, a_id, m_id, fields⟩]) =
      processItem [m_id] [] ⟨i_id, a_t, a_id, m_id, fields⟩ := by
    have hp : (onePage [InventoryItem.mk i_id a_t a_id m_id fields] none).total_pages = 1 := rfl
    have hd : (onePage [InventoryItem.mk i_id a_t a_id m_id fields] (some 0)).data =
        [InventoryItem.mk i_id a_t a_id m_id fields] := rfl
    simp [get_all_active_ubiquiti_inventory_macs, hp, hd, hmodels, hr1]
  rw [hrun]
  rw [show processItem [m_id] [] ⟨i_id, a_t, a_id, m_id, fields⟩ =
      scanFields ⟨i_id, a_t, a_id, m_id, fields⟩ fields [] from by
    unfold processItem
    rw [if_pos (by exact hA), if_pos (List.mem_singleton_self m_id)]]
  rw [scanFields_lookup]
  rcases hgl : (fields.filter fun f => macMatches f.data).getLast? with _ | x
  · rw [hgl]
    rfl
  · rw [hgl]
    rfl

theorem matchLoop_none (coords : List (Nat × Coord)) (l : List (Nat × MacRecord))
    (matched : List (String × Coord))
    (h : ∃ e ∈ l, dictGet? coords e.2.assignee_id = none) :
    matchLoop coords l matched = none := by
  induction l generalizing matched with
  | nil => simp at h
  | cons entry rest ih =>
    rcases h with ⟨e, he, hnone⟩
    rcases List.mem_cons.mp he with rfl | hmem
    · unfold matchLoop
      rw [hnone]
    · unfold matchLoop
      rcases hc : dictGet? coords entry.2.assignee_id with _ | c
      · rfl
      · exact ih _ ⟨e, hmem, hnone⟩

theorem foldl_paginate_general {α : Type} (f : Nat → List α) (l : List Nat)
    (d : List α) (t : List (Option Nat)) :
    l.foldl (fun acc page => (acc.1 ++ f page, acc.2 ++ [some page])) (d, t) =
      (d ++ (l.map f).flatten, t ++ l.map some) := by
  induction l generalizing d t with
  | nil => simp
  | cons p rest ih =>
    rw [List.foldl_cons, ih]
    simp [List.append_assoc]

theorem runPaginator_eq {α : Type} (fetch : Fetch α) :
    runPaginator fetch =
      (((List.range (fetch none).total_pages).map fun p => (fetch (some p)).data).flatten,
        none :: (List.range (fetch none).total_pages).map some) := by
  unfold runPaginator
  rw [foldl_paginate_general (fun p => (fetch (some p)).data)]
  simp

theorem count_map_some (l : List Nat) (p : Nat) : (l.map some).count (some p) = l.count p := by
  induction l with
  | nil => rfl
  | cons a rest ih =>
    rw [List.map_cons, List.count_cons, List.count_cons, ih]
    have hbeq : ((some a : Option Nat) == some p) = (a == p) := rfl
    rw [hbeq]

theorem foldl_flatten {α β : Type} (g : β → α → β) (f : Nat → List α) (l : List Nat)
    (init : β) :
    l.foldl (fun acc p => (f p).foldl g acc) init = ((l.map f).flatten).foldl g init := by
  induction l generalizing init with
  | nil => rfl
  | cons p rest ih =>
    rw [List.foldl_cons, ih, List.map_cons, List.flatten_cons, List.foldl_append]

theorem pyUpper_data_append_newline (v : String) :
    (pyUpper (v ++ "\n")).data = (pyUpper v).data ++ ['\n'] := by
  unfold pyUpper
  rw [show (v ++ "\n").data = v.data ++ ['\n'] from String.data_append ..]
  rw [List.map_append]
  rfl

/-- C1, as stated, is refuted: for the fields
`["not-a-mac", "AA:BB:CC:DD:EE:FF", "11:22:33:44:55:66"]` of an eligible
item, the kept mac is `"11:22:33:44:55:66"` — the LAST matching field, not
the first, because the field loop has no break and later matches overwrite
the dict entry. -/
theorem first_match_refuted :
    dictGet? (get_all_active_ubiquiti_inventory_macs (onePage [⟨1, 1⟩])
      (onePage [⟨10, "account", 100, 1,
        [⟨"not-a-mac"⟩, ⟨"AA:BB:CC:DD:EE:FF"⟩, ⟨"11:22:33:44:55:66"⟩]⟩])) 10 =
      some ⟨100, "11:22:33:44:55:66"⟩ ∧
    dictGet? (get_all_active_ubiquiti_inventory_macs (onePage [⟨1, 1⟩])
      (onePage [⟨10, "account", 100, 1,
        [⟨"not-a-mac"⟩, ⟨"AA:BB:CC:DD:EE:FF"⟩, ⟨"11:22:33:44:55:66"⟩]⟩])) 10 ≠
      some ⟨100, "AA:BB:CC:DD:EE:FF"⟩ := by
  constructor
  · decide
  · decide

/-- C1 (amended): for an eligible inventory item the device filter keeps
exactly one mac, namely the value of the LAST field (in field order) whose
value matches the MAC pattern; the dict entry for the item equals the last
matching field's data, and is absent when no field matches. -/
theorem last_match_wins (a_t : String) (a_id i_id m_id : Nat) (fields : List ItemField)
    (hA : a_t ∉ excludedAssigneeTypes) :
    dictGet? (get_all_active_ubiquiti_inventory_macs (onePage [⟨m_id, 1⟩])
        (onePage [⟨i_id, a_t, a_id, m_id, fields⟩])) i_id =
      ((fields.filter fun f => macMatches f.data).getLast?).map
        (fun f => MacRecord.mk a_id f.data) :=
  single_item_lookup a_t a_id i_id m_id fields hA

/-- Witness for C1 (amended) at the claim's concrete field list. -/
theorem last_match_wins_witness :
    "account" ∉ excludedAssigneeTypes ∧
    dictGet? (get_all_active_ubiquiti_inventory_macs (onePage [⟨1, 1⟩])
        (onePage [⟨10, "account", 100, 1,
          [⟨"not-a-mac"⟩, ⟨"AA:BB:CC:DD:EE:FF"⟩, ⟨"11:22:33:44:55:66"⟩]⟩])) 10 =
      ((([⟨"not-a-mac"⟩, ⟨"AA:BB:CC:DD:EE:FF"⟩, ⟨"11:22:33:44:55:66"⟩] : List ItemField).filter
          (fun f => macMatches f.data)).getLast?).map (fun f => MacRecord.mk 100 f.data) :=
  ⟨by decide,
    last_match_wins "account" 100 10 1
      [⟨"not-a-mac"⟩, ⟨"AA:BB:CC:DD:EE:FF"⟩, ⟨"11:22:33:44:55:66"⟩] (by decide)⟩

/-- C2: with models `[{id 1, manufacturer 1}]`, one eligible item
`{id 10, assignee_type "account", assignee_id 100, model 1,
fields [{"AA:BB:CC:DD:EE:FF"}]}`, accounts geo `[{id 100, (5,6)}]` and no
network sites, the full correlation pipeline returns exactly
`{"AA:BB:CC:DD:EE:FF": (5,6)}`. -/
theorem end_to_end_pipeline :
    match_coordinates_to_inventory (onePage [⟨1, 1⟩])
      (onePage [⟨10, "account", 100, 1, [⟨"AA:BB:CC:DD:EE:FF"⟩]⟩])
      [⟨100, (5, 6)⟩] [] = some [("AA:BB:CC:DD:EE:FF", (5, 6))] := by
  decide

/-- C3: whenever some filtered device record carries an assignee id that is
absent from the merged geo index, the correlation step fails (the
`KeyError`, embedded as `none`) and yields no output mapping at all. -/
theorem missing_key_aborts (fetchModels : Fetch InventoryModel)
    (fetchItems : Fetch InventoryItem) (accountsFeatures sitesFeatures : List GeoPoint)
    (h : ∃ e ∈ get_all_active_ubiquiti_inventory_macs fetchModels fetchItems,
      dictGet? (get_all_coordinates accountsFeatures sitesFeatures) e.2.assignee_id = none) :
    match_coordinates_to_inventory fetchModels fetchItems accountsFeatures sitesFeatures =
      none :=
  matchLoop_none _ _ [] h

/-- Witness for C3: a device assigned to the unknown entity 999 with an empty
geo index aborts the whole correlation. -/
theorem missing_key_aborts_witness :
    (∃ e ∈ get_all_active_ubiquiti_inventory_macs (onePage [⟨1, 1⟩])
        (onePage [⟨10, "account", 999, 1, [⟨"AA:BB:CC:DD:EE:FF"⟩]⟩]),
      dictGet? (get_all_coordinates [] []) e.2.assignee_id = none) ∧
    match_coordinates_to_inventory (onePage [⟨1, 1⟩])
      (onePage [⟨10, "account", 999, 1, [⟨"AA:BB:CC:DD:EE:FF"⟩]⟩]) [] [] = none :=
  ⟨by decide, missing_key_aborts _ _ _ _ (by decide)⟩

/-- C4, as stated, is refuted: the pattern also accepts
`"AA:BB-CC:DD-EE:FF"`, whose separators are NOT consistent within the match
(each of the five separators is independently `:` or `-`). -/
theorem mixed_separator_accepted :
    macMatches "AA:BB-CC:DD-EE:FF" = true ∧
    consistentSepMac "AA:BB-CC:DD-EE:FF" = false := by
  decide

/-- C4 (amended): the MAC test accepts exactly the strings whose uppercased
form is six groups of two hex digits joined by five separators each
independently `:` or `-`, optionally followed by one trailing newline
(Python's `$`). -/
theorem mac_pattern_exact (v : String) :
    macMatches v = true ↔ MacShapeP (pyUpper v).data :=
  macRegexMatch_iff_shape (pyUpper v)

/-- Witness for C4 (amended): the lowercase hyphenated example is accepted
and hence has the characterized shape. -/
theorem mac_pattern_exact_witness : MacShapeP (pyUpper "aa-bb-cc-dd-ee-ff").data :=
  (mac_pattern_exact "aa-bb-cc-dd-ee-ff").mp (by decide)

/-- C5: the merged geo index is the accounts dict overlaid by the
network-sites dict — wherever the sites dict has an entry, the merged dict
holds the sites coordinate (last-write-wins). -/
theorem sites_overwrite_accounts (accountsFeatures sitesFeatures : List GeoPoint) (k : Nat)
    (h : (dictGet? (get_all_network_sites_coordinates sitesFeatures) k).isSome = true) :
    dictGet? (get_all_coordinates accountsFeatures sitesFeatures) k =
      dictGet? (get_all_network_sites_coordinates sitesFeatures) k := by
  have hnd : (dictKeys (get_all_network_sites_coordinates sitesFeatures)).Nodup :=
    foldl_insert_nodup GeoPoint.id GeoPoint.coordinates sitesFeatures [] (by simp [dictKeys])
  have hm := dictGet?_merge (get_all_network_sites_coordinates sitesFeatures)
    (get_all_accounts_coordinates accountsFeatures) k hnd
  obtain ⟨c, hc⟩ := Option.isSome_iff_exists.mp h
  rw [show get_all_coordinates accountsFeatures sitesFeatures =
      dictMerge (get_all_accounts_coordinates accountsFeatures)
        (get_all_network_sites_coordinates sitesFeatures) from rfl, hm, hc]

/-- Witness for C5: merging accounts `{7: (1,1)}` with sites `{7: (2,2)}`
yields `{7: (2,2)}`. -/
theorem sites_overwrite_accounts_witness :
    dictGet? (get_all_coordinates [⟨7, (1, 1)⟩] [⟨7, (2, 2)⟩]) 7 = some (2, 2) :=
  (sites_overwrite_accounts [⟨7, (1, 1)⟩] [⟨7, (2, 2)⟩] 7 (by decide)).trans (by decide)

/-- C6: with `N = total_pages` reported by the parameterless fetch, the
pagination yields exactly the concatenation of the record sequences of pages
`0..N-1` in page order, each of those pages is fetched exactly once, and the
inlined model pagination of the source equals a fold over the paginated
concatenation. -/
theorem paginator_concat_once {α : Type} (fetch : Fetch α)
    (fetchModels : Fetch InventoryModel) :
    (runPaginator fetch).1 =
      ((List.range (fetch none).total_pages).map fun p => (fetch (some p)).data).flatten ∧
    (∀ p, p < (fetch none).total_pages → ((runPaginator fetch).2).count (some p) = 1) ∧
    get_all_ubiquiti_models fetchModels =
      ((runPaginator fetchModels).1).foldl
        (fun models model =>
          if model.manufacturer_id = 1 then models ++ [model.id] else models) [] := by
  refine ⟨?_, ?_, ?_⟩
  · rw [runPaginator_eq]
  · intro p hp
    rw [runPaginator_eq]
    show ((none :: (List.range (fetch none).total_pages).map some).count (some p)) = 1
    rw [List.count_cons, count_map_some]
    have hz : ((none : Option Nat) == some p) = false := rfl
    rw [hz]
    simp [List.count_eq_one_of_mem (List.nodup_range _) (List.mem_range.mpr hp)]
  · show (List.range (fetchModels none).total_pages).foldl
        (fun models page => ((fetchModels (some page)).data).foldl
          (fun models model =>
            if model.manufacturer_id = 1 then models ++ [model.id] else models)
          models) [] = _
    rw [foldl_flatten
      (fun models model => if model.manufacturer_id = 1 then models ++ [model.id] else models)
      (fun p => (fetchModels (some p)).data) (List.range (fetchModels none).total_pages) []]
    rw [runPaginator_eq]

/-- Witness for C6 at a concrete two-page resource. -/
theorem paginator_concat_once_witness :
    (runPaginator twoPageFetch).1 = [1, 2, 3] ∧
    ((runPaginator twoPageFetch).2).count (some 1) = 1 := by
  refine ⟨?_, ?_⟩
  · exact ((paginator_concat_once twoPageFetch (onePage [])).1).trans (by decide)
  · exact ((paginator_concat_once twoPageFetch (onePage [])).2).1 1 (by decide)

/-- C7, as stated, is refuted: the code does not trim.  The value
`" AA:BB:CC:DD:EE:FF"` (leading space) is rejected by the filter's test even
though its trimmed, uppercased form matches the MAC pattern. -/
theorem trimming_refuted :
    macMatches " AA:BB:CC:DD:EE:FF" = false ∧
    trimmedUpperMatches " AA:BB:CC:DD:EE:FF" = true := by
  decide

/-- C7 (amended): whether `v` matches is decided on the uppercased (NOT
trimmed) form of `v` — matching factors through `pyUpper`, hence is
case-insensitive — and when `v` matches, the mac stored in the device record
is the original `v` itself, casing and separators preserved. -/
theorem upper_decides_and_preserves (v w : String) (hvw : pyUpper v = pyUpper w) :
    macMatches v = macMatches w ∧
    (macMatches v = true →
      dictGet? (get_all_active_ubiquiti_inventory_macs (onePage [⟨1, 1⟩])
        (onePage [⟨10, "account", 100, 1, [⟨v⟩]⟩])) 10 = some ⟨100, v⟩) := by
  constructor
  · unfold macMatches
    rw [hvw]
  · intro hv
    rw [single_item_lookup "account" 100 10 1 [⟨v⟩] (by decide)]
    rw [List.filter_cons_of_pos (by exact hv), List.filter_nil]
    rfl

/-- Witness for C7 (amended): a lowercase hyphenated value matches and is
stored verbatim, not normalized. -/
theorem upper_decides_and_preserves_witness :
    dictGet? (get_all_active_ubiquiti_inventory_macs (onePage [⟨1, 1⟩])
      (onePage [⟨10, "account", 100, 1, [⟨"aa-bb-cc-dd-ee-ff"⟩]⟩])) 10 =
      some ⟨100, "aa-bb-cc-dd-ee-ff"⟩ :=
  (upper_decides_and_preserves "aa-bb-cc-dd-ee-ff" "aa-bb-cc-dd-ee-ff" rfl).2 (by decide)

/-- C8: an item whose assignee type is one of the three excluded categories
is rejected by the device filter regardless of its model id and fields: the
macs dict is left unchanged. -/
theorem excluded_assignee_rejected (models : List Nat) (macs : List (Nat × MacRecord))
    (item : InventoryItem) (h : item.assignee_type ∈ excludedAssigneeTypes) :
    processItem models macs item = macs := by
  unfold processItem
  rw [if_neg (not_not_intro h)]

/-- Witness for C8: a `vehicles` item with a matching model and a valid MAC
field contributes nothing. -/
theorem excluded_assignee_rejected_witness :
    processItem [5] [] ⟨1, "vehicles", 2, 5, [⟨"AA:BB:CC:DD:EE:FF"⟩]⟩ = [] :=
  excluded_assignee_rejected [5] [] _ (by decide)

/-- C9: `create_url` fails with `URLError endpoint` exactly when the endpoint
does not begin with `'/'` (the empty string included), and otherwise returns
`BASE_URL` with the endpoint appended, unchanged. -/
theorem create_url_spec (e : String) :
    (create_url e = Except.error e ↔ e.data.head? ≠ some '/') ∧
    (e.data.head? = some '/' → create_url e = Except.ok (BASE_URL ++ e)) := by
  rcases e with ⟨_ | ⟨c, cs⟩⟩
  · constructor
    · simp [create_url]
    · intro h
      simp at h
  · by_cases hc : c = '/'
    · subst hc
      refine ⟨?_, fun _ => ?_⟩
      · simp [create_url]
      · simp [create_url]
    · refine ⟨?_, ?_⟩
      · simp [create_url, hc]
      · intro h
        simp at h
        exact absurd h hc

/-- Witness for C9 at the empty endpoint and a well-formed endpoint. -/
theorem create_url_spec_witness :
    create_url "" = Except.error "" ∧
    create_url "/accounts" = Except.ok (BASE_URL ++ "/accounts") :=
  ⟨(create_url_spec "").1.mpr (by decide), (create_url_spec "/accounts").2 (by decide)⟩

/-- C10: a strict MAC value followed by one trailing newline still matches
the filter's test (Python's `$` matches before a final newline), and the mac
stored for the item is the value INCLUDING the trailing newline. -/
theorem trailing_newline_accepted (v : String) (h : macMatchesStrict v = true) :
    macMatches (v ++ "\n") = true ∧
    dictGet? (get_all_active_ubiquiti_inventory_macs (onePage [⟨1, 1⟩])
      (onePage [⟨10, "account", 100, 1, [⟨v ++ "\n"⟩]⟩])) 10 =
      some ⟨100, v ++ "\n"⟩ := by
  have hcons : macConsume (pyUpper v).data = some [] := by
    unfold macMatchesStrict at h
    rcases hm : macConsume (pyUpper v).data with _ | tail
    · rw [hm] at h
      simp at h
    · rw [hm] at h
      simp at h
      rw [h]
  have hmac : macMatches (v ++ "\n") = true := by
    unfold macMatches macRegexMatch
    rw [pyUpper_data_append_newline v]
    rw [macConsume_append (pyUpper v).data ['\n'] [] hcons]
    rfl
  refine ⟨hmac, ?_⟩
  rw [single_item_lookup "account" 100 10 1 [⟨v ++ "\n"⟩] (by decide)]
  rw [List.filter_cons_of_pos (by exact hmac), List.filter_nil]
  rfl

/-- Witness for C10 at the concrete value of the claim. -/
theorem trailing_newline_accepted_witness :
    macMatches ("aa:bb:cc:dd:ee:ff" ++ "\n") = true ∧
    dictGet? (get_all_active_ubiquiti_inventory_macs (onePage [⟨1, 1⟩])
      (onePage [⟨10, "account", 100, 1, [⟨"aa:bb:cc:dd:ee:ff" ++ "\n"⟩]⟩])) 10 =
      some ⟨100, "aa:bb:cc:dd:ee:ff" ++ "\n"⟩ :=
  trailing_newline_accepted "aa:bb:cc:dd:ee:ff" (by decide)

end Sonar
